import Mathlib

/-!
Verification of the GtaVRadio deterministic radio scheduler
(`src/js/constants.js`): a shallow embedding of the seeded number source,
the anti-repetition index draw pools, and the three station variants
(static / talkshow / dynamic), with theorems settling the frozen claims.

Modelling conventions:
* JS 32-bit integer semantics are modelled on `Nat` with explicit
  `% 2^32` reductions where the JS bitwise operators truncate.
* JS `number / number` in `toFloat` is modelled exactly on `ℚ`.
* Mutable objects (the PRNG, the draw pools, station instances, and the
  station metadata — which the dynamic variant mutates) are threaded as
  explicit state values.
* Array indexing out of range throws in JS (`undefined.path`); the model
  totalises it with a default element, and theorems about real runs carry
  nonemptiness hypotheses so the default is never reached.
* The unbounded `while (true)` replay loop of `getSyncedSegment` is
  modelled with explicit fuel.
-/

attribute [local semireducible] Rat.mul Rat.inv Rat.add Rat.sub

namespace GtaVRadio

/-! ## Seeded pseudo-random number source (`SeededPRNG`) -/

/-- JS `ToUint32` conversion applied by the bitwise operators. -/
def toUint32 (n : ℕ) : ℕ := n % 4294967296

structure SeededPRNG where
  seed : ℕ
  index : ℕ
deriving DecidableEq, Repr

/-- `SeededPRNG.generate`: xorshift-style hash of `(seed, index)`;
multiplier `0x45d9f3b`, shifts 21 / 15 / 13, result an unsigned 32-bit value. -/
def SeededPRNG.generate (s : SeededPRNG) : ℕ :=
  let v0 := (toUint32 s.seed) ^^^ (toUint32 s.index)
  let v1 := ((v0 ^^^ (v0 >>> 21)) * 0x45d9f3b) % 4294967296
  let v2 := ((v1 ^^^ (v1 >>> 15)) * 0x45d9f3b) % 4294967296
  v2 ^^^ (v2 >>> 13)

/-- The `generate()` method call: reads the state, writes nothing. -/
def SeededPRNG.generateCall (s : SeededPRNG) : ℕ × SeededPRNG :=
  (s.generate, s)

/-- `SeededPRNG.next`: generate, then increment `index`. -/
def SeededPRNG.next (s : SeededPRNG) : ℕ × SeededPRNG :=
  (s.generate, { s with index := s.index + 1 })

/-- `SeededPRNG.toFloat`: divide by `0xFFFFFFFF`, mapping a raw value into `[0, 1]`. -/
def SeededPRNG.toFloat (number : ℕ) : ℚ := (number : ℚ) / 4294967295

/-- Outputs of `k` successive `next()` calls. -/
def SeededPRNG.nextSeq (s : SeededPRNG) : ℕ → List ℕ
  | 0 => []
  | k + 1 =>
    let (v, s') := s.next
    v :: s'.nextSeq k

/-! ## Anti-repetition draw pool (`IndexDrawPool`) -/

structure IndexDrawPool where
  /-- Available indexes that have not been used in the last `dontRepeatFor` draws. -/
  draw : List ℕ
  /-- Queue with recently used indexes. -/
  discard : List ℕ
  /-- Number of recent indexes to exclude from selection.  `ℤ` because the
  manager constructs it as `Math.min(dontRepeatFor, sourceSize - 1)`,
  which is `-1` when `sourceSize = 0`. -/
  dontRepeatFor : ℤ

/-- The `IndexDrawPool` constructor: `draw = [0, ..., sourceSize-1]`, empty discard queue. -/
def IndexDrawPool.create (sourceSize : ℕ) (dontRepeatFor : ℤ) : IndexDrawPool :=
  { draw := List.range sourceSize, discard := [], dontRepeatFor := dontRepeatFor }

/-- `IndexDrawPool.next`: `null` when the draw list is empty; otherwise splice
out the element at `randomInteger % draw.length`, push it on the discard
queue, and when the queue exceeds `dontRepeatFor`, shift its oldest element
back into the draw list. -/
def IndexDrawPool.next (s : IndexDrawPool) (randomInteger : ℕ) :
    Option ℕ × IndexDrawPool :=
  if h : s.draw.length = 0 then (none, s)
  else
    let randomIndex := randomInteger % s.draw.length
    let selected := s.draw.get ⟨randomIndex, Nat.mod_lt _ (Nat.pos_of_ne_zero h)⟩
    let draw1 := s.draw.eraseIdx randomIndex
    let discard1 := s.discard ++ [selected]
    if (discard1.length : ℤ) > s.dontRepeatFor then
      (some selected,
        { draw := draw1 ++ [discard1.headI], discard := discard1.tail,
          dontRepeatFor := s.dontRepeatFor })
    else
      (some selected,
        { draw := draw1, discard := discard1, dontRepeatFor := s.dontRepeatFor })

/-- Run a pool over a list of random integers, collecting each draw's result. -/
def runPool (s : IndexDrawPool) : List ℕ → List (Option ℕ) × IndexDrawPool
  | [] => ([], s)
  | r :: rs =>
    let (o, s') := s.next r
    let (os, s'') := runPool s' rs
    (o :: os, s'')

/-! ## Draw pool manager (`IndexDrawPoolManager`) -/

structure IndexDrawPoolManager where
  /-- The `Map` of pools keyed by string id, as a lookup function. -/
  map : String → Option IndexDrawPool

def IndexDrawPoolManager.empty : IndexDrawPoolManager := ⟨fun _ => none⟩

/-- `IndexDrawPoolManager.nextUniqueIndex`: lazily construct the pool for `id`
(window clamped to `min(dontRepeatFor, sourceSize - 1)`) on first use, then
draw from it.  The JS default for `dontRepeatFor` is `8`. -/
def IndexDrawPoolManager.nextUniqueIndex (m : IndexDrawPoolManager) (id : String)
    (sourceSize : ℕ) (randomInteger : ℕ) (dontRepeatFor : ℕ) :
    Option ℕ × IndexDrawPoolManager :=
  let m1 : IndexDrawPoolManager :=
    if (m.map id).isSome then m
    else ⟨fun x => if x = id then
            some (IndexDrawPool.create sourceSize
              (min (dontRepeatFor : ℤ) ((sourceSize : ℤ) - 1)))
          else m.map x⟩
  match m1.map id with
  | some pool =>
    let (r, pool') := pool.next randomInteger
    (r, ⟨fun x => if x = id then some pool' else m1.map x⟩)
  | none => (none, m1)

/-! ## Segment data model and path resolution -/

/-- `localDataPath` constant.  The local/remote data-root fallback is
external I/O, out of the verified core's scope; the process-wide root is
modelled as the local constant it is initialised to. -/
def localDataPath : String := "data/"

def getDataPath : String := localDataPath

/-- An alternate voice-over descriptor (a path-carrying metadata object). -/
structure VoiceoverInfo where
  path : String
deriving DecidableEq, Repr

/-- A segment descriptor as it appears in a station's `fileGroups` metadata.
`voiceOver` starts out absent; `DynamicStation.getRandomTrack` assigns it on
the metadata object itself. -/
structure SegmentInfo where
  path : String
  duration : ℕ
  audibleDuration : Option ℕ
  voiceovers : Option (List VoiceoverInfo)
  voiceOver : Option VoiceoverInfo
deriving DecidableEq, Repr

/-- Default element standing in for JS `undefined` at an out-of-range array
index (real JS throws on the subsequent `.path` access; theorems about real
runs rule this case out with nonemptiness hypotheses). -/
def dfltSegmentInfo : SegmentInfo :=
  { path := "", duration := 0, audibleDuration := none,
    voiceovers := none, voiceOver := none }

def dfltVoiceoverInfo : VoiceoverInfo := { path := "" }

/-- `StationMeta.getAbsolutePath`. -/
def getAbsolutePath (stationPath relativePath : String) : String :=
  getDataPath ++ stationPath ++ "/" ++ relativePath

/-- `StationMeta.resolveObjectPath` applied to a voice-over object:
clone with the path resolved to absolute form. -/
def resolveVoiceoverPath (stationPath : String) (object : VoiceoverInfo) :
    VoiceoverInfo :=
  { path := getAbsolutePath stationPath object.path }

/-- A station's `meta.fileGroups`: named ordered lists of segment descriptors. -/
structure FileGroups where
  track : List SegmentInfo
  id : List SegmentInfo
  mono_solo : List SegmentInfo
deriving DecidableEq, Repr

/-- The station metadata object (the scheduler only reads `fileGroups`). -/
structure StationMetaObj where
  fileGroups : FileGroups
deriving DecidableEq, Repr

/-- A synced segment: a cloned descriptor with resolved path, stamped with
`startTimestamp`; `isTrack` is attached by the talkshow/dynamic variants. -/
structure SyncedSegment where
  path : String
  duration : ℕ
  audibleDuration : Option ℕ
  voiceovers : Option (List VoiceoverInfo)
  voiceOver : Option VoiceoverInfo
  startTimestamp : ℕ
  isTrack : Option Bool
deriving DecidableEq, Repr

/-- `RadioStation.newSyncedSegment`: `resolveObjectPath` clones the descriptor
(all fields, including a freshly attached `voiceOver`) and resolves its path;
then `startTimestamp = epoch + accumulatedTime * 1000`. -/
def newSyncedSegment (stationPath : String) (segmentInfo : SegmentInfo)
    (epoch accumulatedTime : ℕ) : SyncedSegment :=
  { path := getAbsolutePath stationPath segmentInfo.path,
    duration := segmentInfo.duration,
    audibleDuration := segmentInfo.audibleDuration,
    voiceovers := segmentInfo.voiceovers,
    voiceOver := segmentInfo.voiceOver,
    startTimestamp := epoch + accumulatedTime * 1000,
    isTrack := none }

/-- JS `segment.audibleDuration || segment.duration` (`0` is falsy). -/
def jsDuration (segment : SyncedSegment) : ℕ :=
  match segment.audibleDuration with
  | some a => if a = 0 then segment.duration else a
  | none => segment.duration

/-- JS truthiness of the optional `isTrack` field (`undefined` is falsy). -/
def truthy (o : Option Bool) : Bool := o.getD false

/-- JS `list[oi]` where `oi` came from a pool draw (`null` indexes to
`undefined`; totalised with the default element). -/
def jsListIndex (l : List SegmentInfo) (oi : Option ℕ) : SegmentInfo :=
  match oi with
  | some i => l.getD i dfltSegmentInfo
  | none => dfltSegmentInfo

/-! ## Fixed-rotation variant (`StaticStation`) -/

structure StaticStation where
  path : String
  meta : StationMetaObj
  segmentIndex : ℕ
  accumulatedTime : ℕ
deriving Repr

/-- `StaticStation.nextSegment`: `tracks[segmentIndex % length]`, increment
the cursor, advance accumulated time by the segment's audible duration. -/
def StaticStation.nextSegment (st : StaticStation) (epoch : ℕ) :
    SyncedSegment × StaticStation :=
  let segmentList := st.meta.fileGroups.track
  let segment := newSyncedSegment st.path
    (segmentList.getD (st.segmentIndex % segmentList.length) dfltSegmentInfo)
    epoch st.accumulatedTime
  (segment,
    { st with segmentIndex := st.segmentIndex + 1,
              accumulatedTime := st.accumulatedTime + jsDuration segment })

/-- The `while (true)` replay loop of `StaticStation.getSyncedSegment`,
with fuel; `epoch` is `startTimestamp` and `now` is `Date.now()`. -/
def StaticStation.syncLoop (epoch now : ℕ) :
    ℕ → StaticStation → Option SyncedSegment × StaticStation
  | 0, st => (none, st)
  | fuel + 1, st =>
    let (segment, st') := st.nextSegment epoch
    let time := epoch + st'.accumulatedTime * 1000
    if now < time then (some segment, st')
    else StaticStation.syncLoop epoch now fuel st'

/-- `StaticStation.getSyncedSegment`: reset `segmentIndex` and
`accumulatedTime`, then replay until simulated time passes `now`. -/
def StaticStation.getSyncedSegment (st : StaticStation) (epoch now fuel : ℕ) :
    Option SyncedSegment × StaticStation :=
  StaticStation.syncLoop epoch now fuel
    { st with segmentIndex := 0, accumulatedTime := 0 }

/-! ## Alternating variant (`TalkshowStation`) -/

structure TalkshowStation where
  path : String
  meta : StationMetaObj
  segmentIndex : ℕ
  prevSegment : Option SyncedSegment
  indexDrawPools : IndexDrawPoolManager
  accumulatedTime : ℕ

/-- `TalkshowStation.getTrack`: the fixed-rotation lookup. -/
def TalkshowStation.getTrack (st : TalkshowStation) : SegmentInfo :=
  let segmentList := st.meta.fileGroups.track
  segmentList.getD (st.segmentIndex % segmentList.length) dfltSegmentInfo

/-- `TalkshowStation.getRandomTransition`: non-repeating draw from the
`"id"` pool, seeded with the shared number source's next value. -/
def TalkshowStation.getRandomTransition (st : TalkshowStation)
    (prng : SeededPRNG) : SegmentInfo × TalkshowStation × SeededPRNG :=
  let transitions := st.meta.fileGroups.id
  let (v, prng') := prng.next
  let (oi, pools') := st.indexDrawPools.nextUniqueIndex "id" transitions.length v 8
  (jsListIndex transitions oi, { st with indexDrawPools := pools' }, prng')

/-- `TalkshowStation.nextSegment`: a track if there is no previous segment or
the previous was not a track, otherwise a transition; the cursor advances
only on track steps. -/
def TalkshowStation.nextSegment (st : TalkshowStation) (epoch : ℕ)
    (prng : SeededPRNG) : SyncedSegment × TalkshowStation × SeededPRNG :=
  let isTrack : Bool :=
    match st.prevSegment with
    | none => true
    | some p => !(truthy p.isTrack)
  let (segmentInfo, st1, prng1) :=
    if isTrack then (st.getTrack, st, prng) else st.getRandomTransition prng
  let segment0 := newSyncedSegment st1.path segmentInfo epoch st1.accumulatedTime
  let segment := { segment0 with isTrack := some isTrack }
  let st2 := if isTrack then { st1 with segmentIndex := st1.segmentIndex + 1 } else st1
  (segment,
    { st2 with prevSegment := some segment,
               accumulatedTime := st2.accumulatedTime + jsDuration segment },
    prng1)

/-- The replay loop of `TalkshowStation.getSyncedSegment`, with fuel. -/
def TalkshowStation.syncLoop (epoch now : ℕ) :
    ℕ → TalkshowStation → SeededPRNG →
      Option SyncedSegment × TalkshowStation × SeededPRNG
  | 0, st, prng => (none, st, prng)
  | fuel + 1, st, prng =>
    let (segment, st', prng') := st.nextSegment epoch prng
    let time := epoch + st'.accumulatedTime * 1000
    if now < time then (some segment, st', prng')
    else TalkshowStation.syncLoop epoch now fuel st' prng'

/-- `TalkshowStation.getSyncedSegment`: resets the PRNG index, the cursor,
accumulated time and the previous segment (but not the draw pools), then
replays. -/
def TalkshowStation.getSyncedSegment (st : TalkshowStation)
    (prng : SeededPRNG) (epoch now fuel : ℕ) :
    Option SyncedSegment × TalkshowStation × SeededPRNG :=
  TalkshowStation.syncLoop epoch now fuel
    { st with segmentIndex := 0, accumulatedTime := 0, prevSegment := none }
    { prng with index := 0 }

/-! ## Weighted-stochastic variant (`DynamicStation`) -/

structure DynamicStation where
  path : String
  meta : StationMetaObj
  prevSegment : Option SyncedSegment
  indexDrawPools : IndexDrawPoolManager
  accumulatedTime : ℕ

/-- `DynamicStation.getRandomTrack`: non-repeating draw from the `"track"`
pool with the step's raw number; when the selected track declares
voice-overs, a voice-over chosen with a freshly drawn `PRNG.next()` is
resolved and assigned to the selected metadata track object itself. -/
def DynamicStation.getRandomTrack (st : DynamicStation) (randNum : ℕ)
    (prng : SeededPRNG) : SegmentInfo × DynamicStation × SeededPRNG :=
  let tracks := st.meta.fileGroups.track
  let (oi, pools') := st.indexDrawPools.nextUniqueIndex "track" tracks.length randNum 8
  let st1 : DynamicStation := { st with indexDrawPools := pools' }
  match oi with
  | none => (dfltSegmentInfo, st1, prng)
  | some i =>
    let selectedTrack := tracks.getD i dfltSegmentInfo
    match selectedTrack.voiceovers with
    | none => (selectedTrack, st1, prng)
    | some voiceovers =>
      let (v, prng') := prng.next
      let selectedTrack' :=
        { selectedTrack with
            voiceOver := some (resolveVoiceoverPath st.path
              (voiceovers.getD (v % voiceovers.length) dfltVoiceoverInfo)) }
      (selectedTrack',
        { st1 with meta :=
            { fileGroups :=
                { st.meta.fileGroups with track := tracks.set i selectedTrack' } } },
        prng')

/-- `DynamicStation.getRandomTransition`: the raw number's parity selects the
`"id"` or `"mono_solo"` category, then a non-repeating draw (same raw
number) selects within it. -/
def DynamicStation.getRandomTransition (st : DynamicStation) (randNum : ℕ) :
    SegmentInfo × DynamicStation :=
  let select := randNum % 2
  let transitionType := if select = 0 then "id" else "mono_solo"
  let transitions :=
    if select = 0 then st.meta.fileGroups.id else st.meta.fileGroups.mono_solo
  let (oi, pools') :=
    st.indexDrawPools.nextUniqueIndex transitionType transitions.length randNum 8
  (jsListIndex transitions oi, { st with indexDrawPools := pools' })

/-- `DynamicStation.nextSegment`: draw `randNum`, compute
`randPercent = toFloat(randNum) * 100`; a track is forced when there is no
previous segment or the previous was not a track, and otherwise chosen
when `randPercent < 50`. -/
def DynamicStation.nextSegment (st : DynamicStation) (epoch : ℕ)
    (prng : SeededPRNG) : SyncedSegment × DynamicStation × SeededPRNG :=
  let (randNum, prng1) := prng.next
  let randPercent : ℚ := SeededPRNG.toFloat randNum * 100
  let isTrack : Bool :=
    match st.prevSegment with
    | none => true
    | some p => !(truthy p.isTrack) || decide (randPercent < 50)
  let (segmentInfo, st1, prng2) :=
    if isTrack then st.getRandomTrack randNum prng1
    else
      let (info, st') := st.getRandomTransition randNum
      (info, st', prng1)
  let segment0 := newSyncedSegment st1.path segmentInfo epoch st1.accumulatedTime
  let segment := { segment0 with isTrack := some isTrack }
  (segment,
    { st1 with prevSegment := some segment,
               accumulatedTime := st1.accumulatedTime + jsDuration segment },
    prng2)

/-- The replay loop of `DynamicStation.getSyncedSegment`, with fuel. -/
def DynamicStation.syncLoop (epoch now : ℕ) :
    ℕ → DynamicStation → SeededPRNG →
      Option SyncedSegment × DynamicStation × SeededPRNG
  | 0, st, prng => (none, st, prng)
  | fuel + 1, st, prng =>
    let (segment, st', prng') := st.nextSegment epoch prng
    let time := epoch + st'.accumulatedTime * 1000
    if now < time then (some segment, st', prng')
    else DynamicStation.syncLoop epoch now fuel st' prng'

/-- `DynamicStation.getSyncedSegment`: resets the PRNG index, accumulated
time and the previous segment (but not the draw pools), then replays. -/
def DynamicStation.getSyncedSegment (st : DynamicStation) (prng : SeededPRNG)
    (epoch now fuel : ℕ) :
    Option SyncedSegment × DynamicStation × SeededPRNG :=
  DynamicStation.syncLoop epoch now fuel
    { st with accumulatedTime := 0, prevSegment := none }
    { prng with index := 0 }

/-- Segments produced by `k` successive `TalkshowStation.nextSegment` calls. -/
def TalkshowStation.run (epoch : ℕ) :
    ℕ → TalkshowStation → SeededPRNG →
      List SyncedSegment × TalkshowStation × SeededPRNG
  | 0, st, prng => ([], st, prng)
  | k + 1, st, prng =>
    let (segment, st', prng') := st.nextSegment epoch prng
    let (rest, st'', prng'') := TalkshowStation.run epoch k st' prng'
    (segment :: rest, st'', prng'')

/-- Segments produced by `k` successive `DynamicStation.nextSegment` calls. -/
def DynamicStation.run (epoch : ℕ) :
    ℕ → DynamicStation → SeededPRNG →
      List SyncedSegment × DynamicStation × SeededPRNG
  | 0, st, prng => ([], st, prng)
  | k + 1, st, prng =>
    let (segment, st', prng') := st.nextSegment epoch prng
    let (rest, st'', prng'') := DynamicStation.run epoch k st' prng'
    (segment :: rest, st'', prng'')

/-! ## Specification-side definitions and run helpers -/

/-- The last `w` elements of a history list (all of it when shorter). -/
def lastN (w : ℕ) (l : List ℕ) : List ℕ := l.drop (l.length - w)

/-- Every contiguous window of `w` elements contains no duplicate. -/
def GoodWindows (w : ℕ) (l : List ℕ) : Prop :=
  ∀ i, ((l.drop i).take w).Nodup

/-- Invariant tying a pool's state to the history `h` of indices it has
produced since construction: drawable + discard is a permutation of the
full index range, and the discard queue holds exactly the last `w` outputs. -/
structure PoolInv (n w : ℕ) (s : IndexDrawPool) (h : List ℕ) : Prop where
  perm : (s.draw ++ s.discard).Perm (List.range n)
  disc : s.discard = lastN w h
  drf : s.dontRepeatFor = (w : ℤ)

/-- Weak invariant: every index held by the pool is below `n`. -/
def PoolRange (n : ℕ) (s : IndexDrawPool) : Prop :=
  ∀ x ∈ s.draw ++ s.discard, x < n

/-- The pool the Manager constructs for `sourceSize` and requested window
`dontRepeatFor` (clamped to `sourceSize - 1`). -/
def managerPool (sourceSize dontRepeatFor : ℕ) : IndexDrawPool :=
  IndexDrawPool.create sourceSize
    (min (dontRepeatFor : ℤ) ((sourceSize : ℤ) - 1))

/-- A sequence of `nextUniqueIndex` calls against a single key; each call
carries its own `(sourceSize, randomInteger, dontRepeatFor)` arguments. -/
def runManager (m : IndexDrawPoolManager) (id : String) :
    List (ℕ × ℕ × ℕ) → List (Option ℕ) × IndexDrawPoolManager
  | [] => ([], m)
  | (n, r, w) :: cs =>
    let (o, m') := m.nextUniqueIndex id n r w
    let (os, m'') := runManager m' id cs
    (o :: os, m'')

/-- The `isTrack` decision of a talkshow step as a function of the previous
segment: a track when there is no previous segment or it was not a track. -/
def prevFlagT : Option SyncedSegment → Bool
  | none => true
  | some p => !(truthy p.isTrack)

/-- The `isTrack` decision of a dynamic step as a function of the previous
segment and the step's raw random number. -/
def dynStepFlag (prev : Option SyncedSegment) (randNum : ℕ) : Bool :=
  match prev with
  | none => true
  | some p =>
    !(truthy p.isTrack) || decide (SeededPRNG.toFloat randNum * 100 < 50)

/-- Forget the mutable `voiceOver` slot of a metadata descriptor. -/
def stripVoiceOver (s : SegmentInfo) : SegmentInfo :=
  { s with voiceOver := none }

/-! ## Concrete fixtures used by counterexamples and witnesses -/

/-- A plain segment descriptor with no voice-overs. -/
def mkSeg (p : String) (d : ℕ) : SegmentInfo :=
  { path := p, duration := d, audibleDuration := none,
    voiceovers := none, voiceOver := none }

def vo0 : VoiceoverInfo := { path := "vo0" }

def vo1 : VoiceoverInfo := { path := "vo1" }

/-- A track declaring two alternate voice-overs. -/
def trackWithVoiceovers : SegmentInfo :=
  { path := "t0", duration := 10, audibleDuration := none,
    voiceovers := some [vo0, vo1], voiceOver := none }

def metaVO : StationMetaObj :=
  ⟨⟨[trackWithVoiceovers], [mkSeg "i0" 5], [mkSeg "m0" 5]⟩⟩

/-- A freshly constructed dynamic station over `metaVO`. -/
def stVO : DynamicStation :=
  { path := "p", meta := metaVO, prevSegment := none,
    indexDrawPools := IndexDrawPoolManager.empty, accumulatedTime := 0 }

def metaPlain : StationMetaObj :=
  ⟨⟨[mkSeg "t0" 10], [mkSeg "i0" 5], [mkSeg "m0" 5]⟩⟩

/-- A previously emitted track segment. -/
def segPrevTrack : SyncedSegment :=
  { path := "data/p/t0", duration := 10, audibleDuration := none,
    voiceovers := none, voiceOver := none, startTimestamp := 0,
    isTrack := some true }

/-- A dynamic station whose previous segment exists and was a track. -/
def stPrevTrack : DynamicStation :=
  { path := "p", meta := metaPlain, prevSegment := some segPrevTrack,
    indexDrawPools := IndexDrawPoolManager.empty, accumulatedTime := 10 }

/-- Four equal-length tracks (no voice-overs) for the replay fixture. -/
def metaFour : StationMetaObj :=
  ⟨⟨[mkSeg "t0" 10, mkSeg "t1" 10, mkSeg "t2" 10, mkSeg "t3" 10],
    [mkSeg "i0" 5], [mkSeg "m0" 5]⟩⟩

/-- A freshly constructed dynamic station over `metaFour`. -/
def stFour : DynamicStation :=
  { path := "p", meta := metaFour, prevSegment := none,
    indexDrawPools := IndexDrawPoolManager.empty, accumulatedTime := 0 }

/-- A fresh talkshow station over `metaPlain`. -/
def tsPlain : TalkshowStation :=
  { path := "p", meta := metaPlain, segmentIndex := 0, prevSegment := none,
    indexDrawPools := IndexDrawPoolManager.empty, accumulatedTime := 0 }

/-- A fresh dynamic station over `metaPlain`. -/
def dynPlain : DynamicStation :=
  { path := "p", meta := metaPlain, prevSegment := none,
    indexDrawPools := IndexDrawPoolManager.empty, accumulatedTime := 0 }

/-! ## Helper lemmas -/

lemma cons_headI_tail {l : List ℕ} (h : l ≠ []) : l.headI :: l.tail = l := by
  cases l with
  | nil => exact absurd rfl h
  | cons a t => rfl

lemma headI_mem {l : List ℕ} (h : l ≠ []) : l.headI ∈ l := by
  cases l with
  | nil => exact absurd rfl h
  | cons a t => exact List.mem_cons_self a t

lemma get_cons_eraseIdx_perm (l : List ℕ) (i : ℕ) (hi : i < l.length) :
    (l.get ⟨i, hi⟩ :: l.eraseIdx i).Perm l := by
  have h1 : l.Perm (l.get ⟨i, hi⟩ :: l.erase (l.get ⟨i, hi⟩)) :=
    List.perm_cons_erase (List.get_mem l i hi)
  have h2 : (l.erase (l.get ⟨i, hi⟩)).Perm (l.eraseIdx i) := by
    simpa using List.erase_getElem hi
  exact (h1.trans (h2.cons _)).symm

/-! ## Draw pool invariant lemmas -/

lemma PoolInv.discard_len {n w : ℕ} {s : IndexDrawPool} {h : List ℕ}
    (inv : PoolInv n w s h) : s.discard.length = min h.length w := by
  rw [inv.disc]
  unfold lastN
  rw [List.length_drop]
  omega

lemma PoolInv.total_len {n w : ℕ} {s : IndexDrawPool} {h : List ℕ}
    (inv : PoolInv n w s h) : s.draw.length + s.discard.length = n := by
  have := inv.perm.length_eq
  simpa using this

lemma PoolInv.draw_pos {n w : ℕ} {s : IndexDrawPool} {h : List ℕ}
    (inv : PoolInv n w s h) (hw : w < n) : s.draw.length ≠ 0 := by
  have h1 := inv.discard_len
  have h2 := inv.total_len
  omega

lemma poolInv_create (n w : ℕ) :
    PoolInv n w (IndexDrawPool.create n (w : ℤ)) [] := by
  refine ⟨?_, ?_, rfl⟩ <;> simp [IndexDrawPool.create, lastN]

lemma lastN_tail_step (w : ℕ) (h : List ℕ) (x : ℕ) (hw : w ≤ h.length) :
    (lastN w h ++ [x]).tail = lastN w (h ++ [x]) := by
  unfold lastN
  rcases Nat.eq_zero_or_pos w with rfl | hwpos
  · simp [List.drop_eq_nil_of_le]
  · have hne : h.drop (h.length - w) ≠ [] := by
      simp only [ne_eq, List.drop_eq_nil_iff]
      omega
    have hL : (h ++ [x]).length - w = (h.length - w) + 1 := by
      rw [List.length_append, List.length_singleton]
      omega
    rw [List.tail_append_of_ne_nil hne, List.tail_drop, hL,
      List.drop_append_of_le_length (by omega)]

lemma next_eq_of_ne {s : IndexDrawPool} (h0 : s.draw.length ≠ 0) (r : ℕ) :
    s.next r =
      (if ((s.discard ++ [s.draw.get ⟨r % s.draw.length,
            Nat.mod_lt _ (Nat.pos_of_ne_zero h0)⟩]).length : ℤ) > s.dontRepeatFor
      then
        (some (s.draw.get ⟨r % s.draw.length, Nat.mod_lt _ (Nat.pos_of_ne_zero h0)⟩),
          ⟨s.draw.eraseIdx (r % s.draw.length) ++
              [(s.discard ++ [s.draw.get ⟨r % s.draw.length,
                Nat.mod_lt _ (Nat.pos_of_ne_zero h0)⟩]).headI],
            (s.discard ++ [s.draw.get ⟨r % s.draw.length,
              Nat.mod_lt _ (Nat.pos_of_ne_zero h0)⟩]).tail,
            s.dontRepeatFor⟩)
      else
        (some (s.draw.get ⟨r % s.draw.length, Nat.mod_lt _ (Nat.pos_of_ne_zero h0)⟩),
          ⟨s.draw.eraseIdx (r % s.draw.length),
            s.discard ++ [s.draw.get ⟨r % s.draw.length,
              Nat.mod_lt _ (Nat.pos_of_ne_zero h0)⟩],
            s.dontRepeatFor⟩)) := by
  rw [IndexDrawPool.next, dif_neg h0]

lemma next_step {n w : ℕ} {s : IndexDrawPool} {hist : List ℕ}
    (inv : PoolInv n w s hist) (hw : w < n) (r : ℕ) :
    ∃ x s', s.next r = (some x, s') ∧ x < n ∧ x ∉ lastN w hist ∧
      PoolInv n w s' (hist ++ [x]) := by
  have h0 := inv.draw_pos hw
  have hilt : r % s.draw.length < s.draw.length :=
    Nat.mod_lt _ (Nat.pos_of_ne_zero h0)
  set x := s.draw.get ⟨r % s.draw.length, hilt⟩ with hxdef
  have hxdraw : x ∈ s.draw := List.get_mem _ _ _
  have hnodup : (s.draw ++ s.discard).Nodup :=
    inv.perm.nodup_iff.mpr (List.nodup_range n)
  have hxdisc : x ∉ s.discard := by
    rcases List.nodup_append.mp hnodup with ⟨-, -, hd⟩
    exact fun hmem => hd hxdraw hmem
  have hxn : x < n := by
    have : x ∈ List.range n := inv.perm.subset (List.mem_append_left _ hxdraw)
    exact List.mem_range.mp this
  have hxlast : x ∉ lastN w hist := by rw [← inv.disc]; exact hxdisc
  have hperm_cons : (x :: s.draw.eraseIdx (r % s.draw.length)).Perm s.draw :=
    get_cons_eraseIdx_perm _ _ hilt
  have hnext := next_eq_of_ne h0 r
  have hmid : ((s.draw.eraseIdx (r % s.draw.length) ++ s.discard) ++ [x]).Perm
      (s.draw ++ s.discard) := by
    have step1 : ((s.draw.eraseIdx (r % s.draw.length) ++ s.discard) ++ [x]).Perm
        (x :: (s.draw.eraseIdx (r % s.draw.length) ++ s.discard)) :=
      List.perm_append_singleton _ _
    have step2 : ((x :: s.draw.eraseIdx (r % s.draw.length)) ++ s.discard).Perm
        (s.draw ++ s.discard) := hperm_cons.append_right _
    exact step1.trans step2
  by_cases hcond : ((s.discard ++ [x]).length : ℤ) > s.dontRepeatFor
  · have hlenw : s.discard.length = w := by
      have h1 : s.discard.length ≤ w := by have := inv.discard_len; omega
      have h2 : ((s.discard.length + 1 : ℕ) : ℤ) > (w : ℤ) := by
        rw [← inv.drf]
        simpa using hcond
      omega
    have hwhist : w ≤ hist.length := by have := inv.discard_len; omega
    have hne : s.discard ++ [x] ≠ [] := by simp
    refine ⟨x, ⟨s.draw.eraseIdx (r % s.draw.length) ++ [(s.discard ++ [x]).headI],
      (s.discard ++ [x]).tail, s.dontRepeatFor⟩,
      by rw [hnext, if_pos hcond], hxn, hxlast, ?_, ?_, inv.drf⟩
    · show ((s.draw.eraseIdx (r % s.draw.length) ++ [(s.discard ++ [x]).headI]) ++
        (s.discard ++ [x]).tail).Perm (List.range n)
      have heq : (s.draw.eraseIdx (r % s.draw.length) ++ [(s.discard ++ [x]).headI]) ++
          (s.discard ++ [x]).tail
          = (s.draw.eraseIdx (r % s.draw.length) ++ s.discard) ++ [x] := by
        rw [List.append_assoc, List.singleton_append, cons_headI_tail hne,
          List.append_assoc]
      rw [heq]
      exact hmid.trans inv.perm
    · show (s.discard ++ [x]).tail = lastN w (hist ++ [x])
      rw [inv.disc]
      exact lastN_tail_step w hist x hwhist
  · have hlt : s.discard.length + 1 ≤ w := by
      have h2 : ¬ ((s.discard.length + 1 : ℕ) : ℤ) > (w : ℤ) := by
        rw [← inv.drf]
        simpa using hcond
      omega
    have hhist : hist.length < w := by have := inv.discard_len; omega
    refine ⟨x, ⟨s.draw.eraseIdx (r % s.draw.length), s.discard ++ [x],
      s.dontRepeatFor⟩,
      by rw [hnext, if_neg hcond], hxn, hxlast, ?_, ?_, inv.drf⟩
    · show (s.draw.eraseIdx (r % s.draw.length) ++ (s.discard ++ [x])).Perm
        (List.range n)
      have heq : s.draw.eraseIdx (r % s.draw.length) ++ (s.discard ++ [x])
          = (s.draw.eraseIdx (r % s.draw.length) ++ s.discard) ++ [x] := by
        rw [List.append_assoc]
      rw [heq]
      exact hmid.trans inv.perm
    · show s.discard ++ [x] = lastN w (hist ++ [x])
      rw [inv.disc]
      unfold lastN
      have h1 : hist.length - w = 0 := by omega
      have h2 : (hist ++ [x]).length - w = 0 := by
        rw [List.length_append, List.length_singleton]
        omega
      rw [h1, h2, List.drop_zero, List.drop_zero]

lemma goodWindows_append {w : ℕ} {h : List ℕ} {x : ℕ}
    (hg : GoodWindows w h) (hx : x ∉ lastN w h) :
    GoodWindows w (h ++ [x]) := by
  rcases Nat.eq_zero_or_pos w with rfl | hwpos
  · intro i; simp
  intro i
  rcases le_or_lt (i + w) h.length with hle | hgt
  · rw [List.drop_append_of_le_length (by omega),
      List.take_append_of_le_length (by rw [List.length_drop]; omega)]
    exact hg i
  · rcases le_or_lt i h.length with hi | hi
    · rw [List.drop_append_of_le_length hi]
      have hlen : (h.drop i).length = h.length - i := List.length_drop ..
      rw [List.take_of_length_le (by simp [hlen]; omega)]
      have hnd : (h.drop i).Nodup := by
        have := hg i
        rwa [List.take_of_length_le (by omega)] at this
      have hxs : x ∉ h.drop i := by
        intro hmem
        apply hx
        unfold lastN
        exact (List.drop_sublist_drop_left _ (by omega)).subset hmem
      rw [List.nodup_append]
      refine ⟨hnd, List.nodup_singleton x, ?_⟩
      intro a ha hmem
      simp only [List.mem_singleton] at hmem
      subst hmem
      exact hxs ha
    · rw [List.drop_eq_nil_of_le (by simp; omega)]
      simp

lemma runPool_invariant {n w : ℕ} (hw : w < n) :
    ∀ (rs : List ℕ) (s : IndexDrawPool) (hist : List ℕ),
      PoolInv n w s hist → GoodWindows w hist →
      ∃ vals : List ℕ, (runPool s rs).1 = vals.map some ∧
        vals.length = rs.length ∧ (∀ x ∈ vals, x < n) ∧
        PoolInv n w (runPool s rs).2 (hist ++ vals) ∧
        GoodWindows w (hist ++ vals) := by
  intro rs
  induction rs with
  | nil =>
    intro s hist inv hg
    refine ⟨[], rfl, rfl, fun x hx => absurd hx (List.not_mem_nil x), ?_, ?_⟩
    · rw [List.append_nil]
      exact inv
    · rw [List.append_nil]
      exact hg
  | cons r rs ih =>
    intro s hist inv hg
    obtain ⟨x, s', hnext, hxn, hxlast, inv'⟩ := next_step inv hw r
    have hg' := goodWindows_append hg hxlast
    obtain ⟨vals, h1, h2, h3, h4, h5⟩ := ih s' (hist ++ [x]) inv' hg'
    refine ⟨x :: vals, ?_, ?_, ?_, ?_, ?_⟩
    · simp only [runPool, hnext]
      simpa using h1
    · simp [h2]
    · intro y hy
      rcases List.mem_cons.mp hy with rfl | hy'
      · exact hxn
      · exact h3 y hy'
    · simp only [runPool, hnext]
      simpa [List.append_assoc] using h4
    · have : hist ++ x :: vals = (hist ++ [x]) ++ vals := by simp
      rw [this]
      exact h5

/-! ## Draw pool weak range lemmas -/

lemma next_none_iff (s : IndexDrawPool) (r : ℕ) :
    (s.next r).1 = none ↔ s.draw = [] := by
  by_cases h : s.draw.length = 0
  · rw [IndexDrawPool.next, dif_pos h]
    simp [List.length_eq_zero.mp h]
  · rw [next_eq_of_ne h r]
    have hne : s.draw ≠ [] := fun hh => h (by simp [hh])
    by_cases hc : ((s.discard ++ [s.draw.get ⟨r % s.draw.length,
        Nat.mod_lt _ (Nat.pos_of_ne_zero h)⟩]).length : ℤ) > s.dontRepeatFor
    · rw [if_pos hc]
      simp [hne]
    · rw [if_neg hc]
      simp [hne]

lemma next_empty (d : List ℕ) (k : ℤ) (r : ℕ) :
    (IndexDrawPool.mk [] d k).next r = (none, ⟨[], d, k⟩) := by
  have hc : (IndexDrawPool.mk [] d k).draw.length = 0 := rfl
  rw [IndexDrawPool.next, dif_pos hc]

lemma runPool_empty (d : List ℕ) (k : ℤ) (rs : List ℕ) :
    (runPool ⟨[], d, k⟩ rs).1 = List.replicate rs.length none ∧
    (runPool ⟨[], d, k⟩ rs).2 = ⟨[], d, k⟩ := by
  induction rs with
  | nil => exact ⟨rfl, rfl⟩
  | cons r rs ih =>
    simp only [runPool, next_empty]
    exact ⟨by simp [ih.1, ih.2, List.replicate_succ], by simp [ih.1, ih.2]⟩

lemma managerPool_eq (n w : ℕ) (hn : 1 ≤ n) :
    managerPool n w = IndexDrawPool.create n ((min w (n - 1) : ℕ) : ℤ) := by
  unfold managerPool
  congr 1
  omega

lemma next_poolRange {n : ℕ} {s : IndexDrawPool} (hr : PoolRange n s) (r : ℕ) :
    (∀ x, (s.next r).1 = some x → x < n) ∧ PoolRange n (s.next r).2 := by
  by_cases h : s.draw.length = 0
  · rw [IndexDrawPool.next, dif_pos h]
    exact ⟨by simp, hr⟩
  · have hilt : r % s.draw.length < s.draw.length :=
      Nat.mod_lt _ (Nat.pos_of_ne_zero h)
    have hxdraw : s.draw.get ⟨r % s.draw.length, hilt⟩ ∈ s.draw :=
      List.get_mem _ _ _
    have hxn : s.draw.get ⟨r % s.draw.length, hilt⟩ < n :=
      hr _ (List.mem_append_left _ hxdraw)
    rw [next_eq_of_ne h r]
    split
    · refine ⟨fun x hx => ?_, fun y hy => ?_⟩
      · simp only [Option.some.injEq] at hx
        exact hx ▸ hxn
      · simp only [List.mem_append] at hy
        rcases hy with (hy' | hy') | hy
        · exact hr _ (List.mem_append_left _
              (List.eraseIdx_subset _ _ hy'))
        · simp only [List.mem_singleton] at hy'
          subst hy'
          have hmem : (s.discard ++ [s.draw.get ⟨r % s.draw.length, hilt⟩]).headI ∈
              s.discard ++ [s.draw.get ⟨r % s.draw.length, hilt⟩] :=
            headI_mem (by simp)
          rcases List.mem_append.mp hmem with hh | hh
          · exact hr _ (List.mem_append_right _ hh)
          · simp only [List.mem_singleton] at hh
            rw [hh]
            exact hxn
        · have : y ∈ s.discard ++ [s.draw.get ⟨r % s.draw.length, hilt⟩] :=
            (List.tail_sublist _).subset hy
          rcases List.mem_append.mp this with hh | hh
          · exact hr _ (List.mem_append_right _ hh)
          · simp only [List.mem_singleton] at hh
            exact hh ▸ hxn
    · refine ⟨fun x hx => ?_, fun y hy => ?_⟩
      · simp only [Option.some.injEq] at hx
        exact hx ▸ hxn
      · simp only [List.mem_append] at hy
        rcases hy with hy | hy
        · exact hr _ (List.mem_append_left _ (List.eraseIdx_subset _ _ hy))
        · rcases hy with hy | hy
          · exact hr _ (List.mem_append_right _ hy)
          · simp only [List.mem_singleton] at hy
            exact hy ▸ hxn

lemma nextUniqueIndex_present {m : IndexDrawPoolManager} {id : String}
    {pool : IndexDrawPool} (h : m.map id = some pool) (n r w : ℕ) :
    (m.nextUniqueIndex id n r w).1 = (pool.next r).1 ∧
    ((m.nextUniqueIndex id n r w).2).map id = some (pool.next r).2 := by
  unfold IndexDrawPoolManager.nextUniqueIndex
  simp [h]

lemma nextUniqueIndex_absent {m : IndexDrawPoolManager} {id : String}
    (h : m.map id = none) (n r w : ℕ) :
    (m.nextUniqueIndex id n r w).1 = ((managerPool n w).next r).1 ∧
    ((m.nextUniqueIndex id n r w).2).map id = some ((managerPool n w).next r).2 := by
  unfold IndexDrawPoolManager.nextUniqueIndex managerPool
  simp [h]

lemma runManager_bound {n₀ : ℕ} {id : String} :
    ∀ (cs : List (ℕ × ℕ × ℕ)) (m : IndexDrawPoolManager)
      (pool : IndexDrawPool), m.map id = some pool → PoolRange n₀ pool →
      ∀ o ∈ (runManager m id cs).1, ∀ x, o = some x → x < n₀ := by
  intro cs
  induction cs with
  | nil =>
    intro m pool hmap hrange o ho
    simp [runManager] at ho
  | cons c cs ih =>
    obtain ⟨n, r, w⟩ := c
    intro m pool hmap hrange o ho
    obtain ⟨hfst, hsnd⟩ := nextUniqueIndex_present hmap n r w
    obtain ⟨hbound, hrange'⟩ := next_poolRange hrange r
    simp only [runManager] at ho
    rcases hE : m.nextUniqueIndex id n r w with ⟨o₁, m'⟩
    rw [hE] at ho hfst hsnd
    simp only at ho hfst hsnd
    rcases List.mem_cons.mp ho with rfl | ho'
    · intro x hx
      exact hbound x (hfst ▸ hx)
    · exact ih m' (pool.next r).2 hsnd hrange' o ho'

/-! ## Claim theorems -/

/-- C5: `generate()` is a pure read of the `(seed, index)` state — repeated
calls return the same unsigned 32-bit value and leave the state unchanged —
and two number sources constructed with equal seeds produce element-wise
identical `next()` sequences from `index = 0`. -/
theorem c5_prng_determinism :
    (∀ s : SeededPRNG, s.generateCall.2 = s ∧
      (s.generateCall.2.generateCall).1 = s.generateCall.1) ∧
    (∀ s₁ s₂ : SeededPRNG, s₁.seed = s₂.seed → s₁.index = 0 → s₂.index = 0 →
      ∀ k, s₁.nextSeq k = s₂.nextSeq k) := by
  refine ⟨fun s => ⟨rfl, rfl⟩, fun s₁ s₂ hs h₁ h₂ k => ?_⟩
  obtain ⟨a, b⟩ := s₁
  obtain ⟨c, d⟩ := s₂
  simp_all

/-- Witness for C5 at seed 7 and three draws. -/
theorem c5_prng_determinism_witness :
    (SeededPRNG.mk 7 0).seed = (SeededPRNG.mk 7 0).seed ∧
    (SeededPRNG.mk 7 0).index = 0 ∧
    SeededPRNG.nextSeq ⟨7, 0⟩ 3 = SeededPRNG.nextSeq ⟨7, 0⟩ 3 :=
  ⟨rfl, rfl, c5_prng_determinism.2 ⟨7, 0⟩ ⟨7, 0⟩ rfl rfl rfl 3⟩

/-- C1 is false on the code: with a previous track segment and
`randomPercent = toFloat(raw) * 100 < 50` (here `raw = 0`, so
`randomPercent = 0`), `DynamicStation.nextSegment` chooses a TRACK
(`isTrack = true`, and the emitted segment is the track `t0`), not a
transition as the claim states. -/
theorem c1_counterexample :
    stPrevTrack.prevSegment = some segPrevTrack ∧
    segPrevTrack.isTrack = some true ∧
    SeededPRNG.toFloat (SeededPRNG.generate ⟨0, 0⟩) * 100 < 50 ∧
    (stPrevTrack.nextSegment 0 ⟨0, 0⟩).1.isTrack = some true ∧
    (stPrevTrack.nextSegment 0 ⟨0, 0⟩).1.path = "data/p/t0" := by
  refine ⟨rfl, rfl, by decide, by decide, by decide⟩

/-- C1 amended: whenever a previous segment exists and it was a track, the
weighted-stochastic step chooses a transition exactly when
`randomPercent = toFloat(raw) * 100` is at least 50, and chooses a track
when `randomPercent < 50`. -/
theorem c1_amended (st : DynamicStation) (p : SyncedSegment)
    (prng : SeededPRNG) (epoch : ℕ)
    (hprev : st.prevSegment = some p) (hp : p.isTrack = some true) :
    ((st.nextSegment epoch prng).1.isTrack = some false ↔
      50 ≤ SeededPRNG.toFloat prng.generate * 100) := by
  simp only [DynamicStation.nextSegment, SeededPRNG.next, hprev, hp, truthy,
    Option.getD_some, Bool.not_true, Bool.false_or]
  by_cases hlt : SeededPRNG.toFloat prng.generate * 100 < 50
  · simp [hlt, not_le.mpr hlt]
  · simp [hlt, not_lt.mp hlt]

/-- Witness for C1 amended: at seed 0, index 3 the raw value maps to
`randomPercent ≥ 50` and a transition is selected. -/
theorem c1_amended_witness :
    stPrevTrack.prevSegment = some segPrevTrack ∧
    segPrevTrack.isTrack = some true ∧
    ((stPrevTrack.nextSegment 0 ⟨0, 3⟩).1.isTrack = some false ↔
      50 ≤ SeededPRNG.toFloat (SeededPRNG.generate ⟨0, 3⟩) * 100) :=
  ⟨rfl, rfl, c1_amended stPrevTrack segPrevTrack ⟨0, 3⟩ 0 rfl rfl⟩

/-- C2 is false on the code: for a fresh dynamic station over `metaVO` and
seed 1, the raw value consumed for track selection is odd
(`raw % 2 = 1`, predicting voice-over `vo1`), but the emitted segment
carries voice-over `vo0`, chosen by a freshly drawn `PRNG.next()` value. -/
theorem c2_counterexample :
    SeededPRNG.generate ⟨1, 0⟩ % 2 = 1 ∧
    (stVO.nextSegment 0 ⟨1, 0⟩).1.voiceOver =
      some (resolveVoiceoverPath "p" vo0) ∧
    (stVO.nextSegment 0 ⟨1, 0⟩).1.voiceOver ≠
      some (resolveVoiceoverPath "p"
        ([vo0, vo1].getD (SeededPRNG.generate ⟨1, 0⟩ % 2) dfltVoiceoverInfo)) := by
  refine ⟨by decide, by decide, by decide⟩

/-- C9 is false on the code: `DynamicStation.getRandomTrack` assigns the
resolved voice-over onto the selected metadata track object itself, so one
`nextSegment` step visibly mutates the station's metadata. -/
theorem c9_counterexample :
    (stVO.nextSegment 0 ⟨1, 0⟩).2.1.meta ≠ stVO.meta := by
  decide

lemma stripVO_set (l : List SegmentInfo) (i : ℕ) (x : SegmentInfo)
    (hx : stripVoiceOver x = stripVoiceOver (l[i]?.getD dfltSegmentInfo)) :
    (l.set i x).map stripVoiceOver = l.map stripVoiceOver := by
  induction l generalizing i with
  | nil => simp
  | cons a t ih =>
    cases i with
    | zero =>
      simp only [List.getElem?_cons_zero, Option.getD_some] at hx
      simp [hx]
    | succ j =>
      simp only [List.getElem?_cons_succ] at hx
      have hset : (a :: t).set (j + 1) x = a :: t.set j x := rfl
      rw [hset, List.map_cons, List.map_cons, ih j hx]

lemma getRandomTrack_meta (st : DynamicStation) (randNum : ℕ) (prng : SeededPRNG) :
    ((st.getRandomTrack randNum prng).2.1).meta.fileGroups.track.map stripVoiceOver
        = st.meta.fileGroups.track.map stripVoiceOver ∧
    ((st.getRandomTrack randNum prng).2.1).meta.fileGroups.id = st.meta.fileGroups.id ∧
    ((st.getRandomTrack randNum prng).2.1).meta.fileGroups.mono_solo
        = st.meta.fileGroups.mono_solo := by
  rcases hp : st.indexDrawPools.nextUniqueIndex "track"
      st.meta.fileGroups.track.length randNum 8 with ⟨oi, pools'⟩
  simp only [DynamicStation.getRandomTrack, hp]
  cases oi with
  | none => simp
  | some i =>
    cases hvo : (st.meta.fileGroups.track[i]?.getD dfltSegmentInfo).voiceovers with
    | none => simp [List.getD_eq_getElem?_getD, hvo]
    | some vos =>
      simp only [List.getD_eq_getElem?_getD, hvo, SeededPRNG.next, and_true,
        true_and, eq_self_iff_true]
      exact stripVO_set _ _ _ (by simp [stripVoiceOver, hvo])

lemma getRandomTransition_meta (st : DynamicStation) (randNum : ℕ) :
    ((st.getRandomTransition randNum).2).meta = st.meta := by
  unfold DynamicStation.getRandomTransition
  rfl

lemma talkshow_nextSegment_meta (ts : TalkshowStation) (epoch : ℕ)
    (prng : SeededPRNG) : ((ts.nextSegment epoch prng).2.1).meta = ts.meta := by
  unfold TalkshowStation.nextSegment TalkshowStation.getRandomTransition
  cases ts.prevSegment with
  | none => rfl
  | some p =>
    cases hB : truthy p.isTrack with
    | false => simp only [hB]; rfl
    | true => simp only [hB]; rfl

lemma static_nextSegment_meta (ss : StaticStation) (epoch : ℕ) :
    ((ss.nextSegment epoch).2).meta = ss.meta := rfl

/-- C9 amended: scheduler steps never modify the metadata's segment
descriptors, with one exception forced by the counterexample: the dynamic
variant's `getRandomTrack` assigns the freshly resolved voice-over onto the
selected metadata track object.  Every other field of every track, the
transition groups, and the whole metadata of the talkshow and static
variants are preserved; resolved path, `startTimestamp` and `isTrack` are
attached only to the freshly created `SyncedSegment`. -/
theorem c9_amended (st : DynamicStation) (prng : SeededPRNG) (epoch : ℕ) :
    (((st.nextSegment epoch prng).2.1).meta.fileGroups.track.map stripVoiceOver
        = st.meta.fileGroups.track.map stripVoiceOver ∧
      ((st.nextSegment epoch prng).2.1).meta.fileGroups.id
        = st.meta.fileGroups.id ∧
      ((st.nextSegment epoch prng).2.1).meta.fileGroups.mono_solo
        = st.meta.fileGroups.mono_solo) ∧
    (∀ (ts : TalkshowStation) (prng2 : SeededPRNG),
      ((ts.nextSegment epoch prng2).2.1).meta = ts.meta) ∧
    (∀ ss : StaticStation, ((ss.nextSegment epoch).2).meta = ss.meta) := by
  refine ⟨?_, fun ts prng2 => talkshow_nextSegment_meta ts epoch prng2,
    fun ss => static_nextSegment_meta ss epoch⟩
  simp only [DynamicStation.nextSegment, SeededPRNG.next]
  split
  · generalize hE : st.getRandomTrack prng.generate
      { seed := prng.seed, index := prng.index + 1 } = res
    obtain ⟨si, st1, prng2⟩ := res
    have h := getRandomTrack_meta st prng.generate
      { seed := prng.seed, index := prng.index + 1 }
    rw [hE] at h
    simpa using h
  · generalize hE : st.getRandomTransition prng.generate = res
    obtain ⟨si, st1⟩ := res
    have h := getRandomTransition_meta st prng.generate
    rw [hE] at h
    dsimp only at h
    simp [h]

/-- C2 amended: when the selected track declares voice-overs, the
voice-over index is `fresh % voiceoverCount` where `fresh` is a NEWLY drawn
value from the number source (the generate at `index + 1`, after the raw
value consumed for track selection at `index`), not the raw value itself. -/
theorem c2_amended (st : DynamicStation) (prng : SeededPRNG) (epoch : ℕ)
    (i : ℕ) (track : SegmentInfo) (vos : List VoiceoverInfo)
    (hprev : st.prevSegment = none)
    (hdraw : (st.indexDrawPools.nextUniqueIndex "track"
      st.meta.fileGroups.track.length prng.generate 8).1 = some i)
    (htrack : st.meta.fileGroups.track.getD i dfltSegmentInfo = track)
    (hvos : track.voiceovers = some vos) :
    (st.nextSegment epoch prng).1.voiceOver =
      some (resolveVoiceoverPath st.path
        (vos.getD (SeededPRNG.generate ⟨prng.seed, prng.index + 1⟩ % vos.length)
          dfltVoiceoverInfo)) := by
  unfold DynamicStation.nextSegment
  simp only [hprev]
  unfold DynamicStation.getRandomTrack
  rcases hp : st.indexDrawPools.nextUniqueIndex "track"
      st.meta.fileGroups.track.length prng.generate 8 with ⟨oi, pools'⟩
  have : oi = some i := by rw [hp] at hdraw; exact hdraw
  subst this
  simp only [SeededPRNG.next] at hp ⊢
  rw [List.getD_eq_getElem?_getD] at htrack
  rw [hp]
  simp [htrack, hvos, newSyncedSegment]

/-- Witness for C2 amended on the `stVO` fixture at seed 1. -/
theorem c2_amended_witness :
    stVO.prevSegment = none ∧
    (stVO.indexDrawPools.nextUniqueIndex "track"
      stVO.meta.fileGroups.track.length (SeededPRNG.generate ⟨1, 0⟩) 8).1 = some 0 ∧
    stVO.meta.fileGroups.track.getD 0 dfltSegmentInfo = trackWithVoiceovers ∧
    trackWithVoiceovers.voiceovers = some [vo0, vo1] ∧
    (stVO.nextSegment 0 ⟨1, 0⟩).1.voiceOver =
      some (resolveVoiceoverPath stVO.path
        ([vo0, vo1].getD (SeededPRNG.generate ⟨1, 0 + 1⟩ % 2) dfltVoiceoverInfo)) :=
  ⟨rfl, by decide, by decide, rfl,
    c2_amended stVO ⟨1, 0⟩ 0 0 trackWithVoiceovers [vo0, vo1] rfl (by decide)
      (by decide) rfl⟩

/-- C4: for a pool built with `sourceSize n ≥ 2` and window `w < n`, every
draw succeeds and any contiguous run of at most `w` outputs contains no
duplicate index; moreover drawable + discard is always a permutation of
the full index range `0..n-1`. -/
theorem c4_antirepetition (n w : ℕ) (hn : 2 ≤ n) (hw : w < n) (rs : List ℕ) :
    (∀ o ∈ (runPool (IndexDrawPool.create n (w : ℤ)) rs).1, o.isSome) ∧
    (∀ l₁ mid l₂, (runPool (IndexDrawPool.create n (w : ℤ)) rs).1
        = l₁ ++ mid ++ l₂ → mid.length ≤ w → mid.Nodup) ∧
    ((runPool (IndexDrawPool.create n (w : ℤ)) rs).2.draw ++
      (runPool (IndexDrawPool.create n (w : ℤ)) rs).2.discard).Perm
        (List.range n) := by
  obtain ⟨vals, h1, h2, h3, h4, h5⟩ := runPool_invariant hw rs
    (IndexDrawPool.create n (w : ℤ)) [] (poolInv_create n w)
    (fun i => by simp)
  rw [List.nil_append] at h4 h5
  refine ⟨?_, ?_, h4.perm⟩
  · rw [h1]
    intro o ho
    rw [List.mem_map] at ho
    obtain ⟨x, -, rfl⟩ := ho
    rfl
  · intro l₁ mid l₂ hsplit hlen
    have hve : vals.map some = l₁ ++ mid ++ l₂ := by rw [← h1, hsplit]
    have hmid : mid = ((vals.map some).drop l₁.length).take mid.length := by
      rw [hve, List.append_assoc, List.drop_left, List.take_left]
    have hdm : ((vals.map some).drop l₁.length).take mid.length
        = ((vals.drop l₁.length).take mid.length).map some := by
      rw [List.map_take, List.map_drop]
    have hnd : ((vals.drop l₁.length).take mid.length).Nodup := by
      have hww : (vals.drop l₁.length).take mid.length
          = ((vals.drop l₁.length).take w).take mid.length := by
        rw [List.take_take, min_eq_left hlen]
      rw [hww]
      exact List.Nodup.sublist (List.take_sublist _ _) (h5 l₁.length)
    rw [hmid, hdm]
    exact hnd.map (Option.some_injective ℕ)

/-- Witness for C4 at a pool of size 3, window 2, and three draws. -/
theorem c4_antirepetition_witness :
    (2 ≤ 3) ∧ (2 < 3) ∧
    ((∀ o ∈ (runPool (IndexDrawPool.create 3 (2 : ℤ)) [5, 9, 14]).1, o.isSome) ∧
      (∀ l₁ mid l₂, (runPool (IndexDrawPool.create 3 (2 : ℤ)) [5, 9, 14]).1
          = l₁ ++ mid ++ l₂ → mid.length ≤ 2 → mid.Nodup) ∧
      ((runPool (IndexDrawPool.create 3 (2 : ℤ)) [5, 9, 14]).2.draw ++
        (runPool (IndexDrawPool.create 3 (2 : ℤ)) [5, 9, 14]).2.discard).Perm
          (List.range 3)) :=
  ⟨by decide, by decide, c4_antirepetition 3 2 (by decide) (by decide) [5, 9, 14]⟩

/-- C6: a draw returns `null` exactly when the drawable set is empty; a
Manager-built pool with `sourceSize = 0` returns `null` on every draw, one
with `sourceSize ≥ 1` never does, and one with `sourceSize = 1` returns
index 0 on every draw. -/
theorem c6_exhaustion :
    (∀ (s : IndexDrawPool) (r : ℕ), (s.next r).1 = none ↔ s.draw = []) ∧
    (∀ (w : ℕ) (rs : List ℕ) (o : Option ℕ),
      o ∈ (runPool (managerPool 0 w) rs).1 → o = none) ∧
    (∀ (n w : ℕ), 1 ≤ n → ∀ (rs : List ℕ) (o : Option ℕ),
      o ∈ (runPool (managerPool n w) rs).1 → o.isSome) ∧
    (∀ (w : ℕ) (rs : List ℕ) (o : Option ℕ),
      o ∈ (runPool (managerPool 1 w) rs).1 → o = some 0) := by
  refine ⟨next_none_iff, ?_, ?_, ?_⟩
  · intro w rs o ho
    have hzero : managerPool 0 w = ⟨[], [], min (w : ℤ) ((0 : ℤ) - 1)⟩ := by
      unfold managerPool IndexDrawPool.create
      simp
    rw [hzero, (runPool_empty _ _ rs).1] at ho
    exact List.eq_of_mem_replicate ho
  · intro n w hn rs o ho
    have hww : min w (n - 1) < n := by omega
    rw [managerPool_eq n w hn] at ho
    obtain ⟨vals, h1, -, -, -, -⟩ := runPool_invariant hww rs
      (IndexDrawPool.create n ((min w (n - 1) : ℕ) : ℤ)) []
      (poolInv_create n (min w (n - 1))) (fun i => by simp)
    rw [h1, List.mem_map] at ho
    obtain ⟨x, -, rfl⟩ := ho
    rfl
  · intro w rs o ho
    rw [managerPool_eq 1 w (le_refl 1)] at ho
    have hww : min w (1 - 1) < 1 := by omega
    obtain ⟨vals, h1, -, h3, -, -⟩ := runPool_invariant hww rs
      (IndexDrawPool.create 1 ((min w (1 - 1) : ℕ) : ℤ)) []
      (poolInv_create 1 (min w (1 - 1))) (fun i => by simp)
    rw [h1, List.mem_map] at ho
    obtain ⟨x, hxv, rfl⟩ := ho
    have hx1 := h3 x hxv
    have hx0 : x = 0 := by omega
    rw [hx0]

/-- Witness for C6 on concrete pools of sizes 2, 1 and 0. -/
theorem c6_exhaustion_witness :
    (((IndexDrawPool.create 2 1).next 7).1 = none ↔
      (IndexDrawPool.create 2 1).draw = []) ∧
    ((1 : ℕ) ≤ 2 ∧ ∀ o ∈ (runPool (managerPool 2 8) [3, 4, 5]).1, o.isSome) ∧
    (some 0 ∈ (runPool (managerPool 1 9) [3, 4, 5]).1 ∧
      (some 0 : Option ℕ) = some 0) :=
  ⟨c6_exhaustion.1 (IndexDrawPool.create 2 1) 7,
    ⟨by decide, c6_exhaustion.2.2.1 2 8 (by decide) [3, 4, 5]⟩,
    ⟨by decide, c6_exhaustion.2.2.2 9 [3, 4, 5] (some 0) (by decide)⟩⟩

/-- C10: a `nextUniqueIndex` call on a key that already has a pool ignores
its `sourceSize` and `dontRepeatFor` arguments entirely, and every index a
Manager ever returns for a key is below the `sourceSize` passed on the
first call with that key. -/
theorem c10_manager_reuse :
    (∀ (m : IndexDrawPoolManager) (id : String) (n n' r w w' : ℕ),
      (m.map id).isSome = true →
      m.nextUniqueIndex id n r w = m.nextUniqueIndex id n' r w') ∧
    (∀ (id : String) (n₀ r₀ w₀ : ℕ) (cs : List (ℕ × ℕ × ℕ)) (o : Option ℕ),
      o ∈ (runManager IndexDrawPoolManager.empty id ((n₀, r₀, w₀) :: cs)).1 →
      ∀ x, o = some x → x < n₀) := by
  constructor
  · intro m id n n' r w w' h
    simp only [IndexDrawPoolManager.nextUniqueIndex]
    rw [if_pos h, if_pos h]
  · intro id n₀ r₀ w₀ cs o ho
    have hempty : IndexDrawPoolManager.empty.map id = none := rfl
    obtain ⟨hfst, hsnd⟩ := nextUniqueIndex_absent hempty n₀ r₀ w₀
    have hrange : PoolRange n₀ (managerPool n₀ w₀) := by
      intro x hx
      unfold managerPool IndexDrawPool.create at hx
      simpa using hx
    obtain ⟨hbound, hrange'⟩ := next_poolRange hrange r₀
    simp only [runManager] at ho
    rcases hE : IndexDrawPoolManager.empty.nextUniqueIndex id n₀ r₀ w₀
      with ⟨o₁, m'⟩
    rw [hE] at ho hfst hsnd
    simp only at ho hfst hsnd
    rcases List.mem_cons.mp ho with rfl | ho'
    · intro x hx
      exact hbound x (hfst ▸ hx)
    · exact runManager_bound cs m' _ hsnd hrange' o ho'

/-- Witness for C10: second call with wildly different arguments agrees, and
a returned index stays below the first call's source size. -/
theorem c10_manager_reuse_witness :
    ((((IndexDrawPoolManager.empty.nextUniqueIndex "k" 2 5 8).2).map "k").isSome
        = true ∧
      ((IndexDrawPoolManager.empty.nextUniqueIndex "k" 2 5 8).2).nextUniqueIndex
          "k" 2 7 8
        = ((IndexDrawPoolManager.empty.nextUniqueIndex "k" 2 5 8).2).nextUniqueIndex
          "k" 99 7 3) ∧
    (some 0 ∈ (runManager IndexDrawPoolManager.empty "k" [(2, 5, 8), (9, 1, 8)]).1 ∧
      0 < 2) :=
  ⟨⟨by decide, c10_manager_reuse.1 _ "k" 2 99 7 8 3 (by decide)⟩,
    ⟨by decide, c10_manager_reuse.2 "k" 2 5 8 [(9, 1, 8)] (some 0) (by decide) 0 rfl⟩⟩

lemma talkshow_step (st : TalkshowStation) (epoch : ℕ) (prng : SeededPRNG) :
    (st.nextSegment epoch prng).1.isTrack = some (prevFlagT st.prevSegment) ∧
    (st.nextSegment epoch prng).2.1.prevSegment
      = some (st.nextSegment epoch prng).1 := by
  cases hp : st.prevSegment with
  | none =>
    unfold TalkshowStation.nextSegment prevFlagT
    rw [hp]
    exact ⟨rfl, rfl⟩
  | some p =>
    unfold TalkshowStation.nextSegment prevFlagT
    rw [hp]
    exact ⟨rfl, rfl⟩

lemma talkshow_run_alternates (epoch : ℕ) :
    ∀ (k : ℕ) (st : TalkshowStation) (prng : SeededPRNG),
      (∀ s0 ∈ (TalkshowStation.run epoch k st prng).1.head?,
        s0.isTrack = some (prevFlagT st.prevSegment)) ∧
      List.Chain' (fun a b => a.isTrack ≠ b.isTrack)
        (TalkshowStation.run epoch k st prng).1 := by
  intro k
  induction k with
  | zero =>
    intro st prng
    exact ⟨by simp [TalkshowStation.run], by simp [TalkshowStation.run]⟩
  | succ k ih =>
    intro st prng
    obtain ⟨hflag, hprev⟩ := talkshow_step st epoch prng
    rcases hE : st.nextSegment epoch prng with ⟨seg, st', prng'⟩
    rw [hE] at hflag hprev
    simp only at hflag hprev
    have hrest := ih st' prng'
    constructor
    · intro s0 hs0
      simp only [TalkshowStation.run, hE, List.head?_cons, Option.mem_def,
        Option.some.injEq] at hs0
      rw [← hs0]
      exact hflag
    · simp only [TalkshowStation.run, hE]
      rw [List.chain'_cons']
      refine ⟨?_, hrest.2⟩
      intro y hy
      have hy' := hrest.1 y hy
      rw [hprev] at hy'
      have hps : prevFlagT (some seg) = !(prevFlagT st.prevSegment) := by
        simp [prevFlagT, truthy, hflag]
      rw [hps] at hy'
      rw [hflag, hy']
      cases prevFlagT st.prevSegment <;> simp

lemma dynamic_step (st : DynamicStation) (epoch : ℕ) (prng : SeededPRNG) :
    (st.nextSegment epoch prng).1.isTrack
      = some (dynStepFlag st.prevSegment prng.generate) ∧
    (st.nextSegment epoch prng).2.1.prevSegment
      = some (st.nextSegment epoch prng).1 := by
  cases hp : st.prevSegment with
  | none =>
    unfold DynamicStation.nextSegment dynStepFlag
    rw [hp]
    exact ⟨rfl, rfl⟩
  | some p =>
    unfold DynamicStation.nextSegment dynStepFlag
    rw [hp]
    exact ⟨rfl, rfl⟩

lemma dynamic_run_chain (epoch : ℕ) :
    ∀ (k : ℕ) (st : DynamicStation) (prng : SeededPRNG),
      (∀ s0 ∈ (DynamicStation.run epoch k st prng).1.head?,
        s0.isTrack = some (dynStepFlag st.prevSegment prng.generate)) ∧
      List.Chain' (fun a b => ¬(a.isTrack = some false ∧ b.isTrack = some false))
        (DynamicStation.run epoch k st prng).1 := by
  intro k
  induction k with
  | zero =>
    intro st prng
    exact ⟨by simp [DynamicStation.run], by simp [DynamicStation.run]⟩
  | succ k ih =>
    intro st prng
    obtain ⟨hflag, hprev⟩ := dynamic_step st epoch prng
    rcases hE : st.nextSegment epoch prng with ⟨seg, st', prng'⟩
    rw [hE] at hflag hprev
    simp only at hflag hprev
    have hrest := ih st' prng'
    constructor
    · intro s0 hs0
      simp only [DynamicStation.run, hE, List.head?_cons, Option.mem_def,
        Option.some.injEq] at hs0
      rw [← hs0]
      exact hflag
    · simp only [DynamicStation.run, hE]
      rw [List.chain'_cons']
      refine ⟨?_, hrest.2⟩
      intro y hy hcontra
      obtain ⟨hA, hB⟩ := hcontra
      have hy' := hrest.1 y hy
      rw [hprev] at hy'
      have hflag2 : dynStepFlag (some seg) prng'.generate = true := by
        simp [dynStepFlag, truthy, hA]
      rw [hflag2] at hy'
      rw [hy'] at hB
      simp at hB

/-- C7: the Alternating variant's runs strictly alternate: starting from a
fresh talkshow station, the first segment is a track, and no two
consecutive segments carry equal `isTrack` flags. -/
theorem c7_alternation (path : String) (meta : StationMetaObj)
    (prng0 : SeededPRNG) (epoch k : ℕ)
    (htr : meta.fileGroups.track ≠ []) (hid : meta.fileGroups.id ≠ []) :
    (∀ s0 ∈ (TalkshowStation.run epoch k
        ⟨path, meta, 0, none, IndexDrawPoolManager.empty, 0⟩ prng0).1.head?,
      s0.isTrack = some true) ∧
    List.Chain' (fun a b => a.isTrack ≠ b.isTrack)
      (TalkshowStation.run epoch k
        ⟨path, meta, 0, none, IndexDrawPoolManager.empty, 0⟩ prng0).1 := by
  have h := talkshow_run_alternates epoch k
    ⟨path, meta, 0, none, IndexDrawPoolManager.empty, 0⟩ prng0
  exact ⟨fun s0 hs0 => by simpa [prevFlagT] using h.1 s0 hs0, h.2⟩

/-- Witness for C7 on a three-step run of the `metaPlain` talkshow station. -/
theorem c7_alternation_witness :
    metaPlain.fileGroups.track ≠ [] ∧ metaPlain.fileGroups.id ≠ [] ∧
    ((∀ s0 ∈ (TalkshowStation.run 0 3
        ⟨"p", metaPlain, 0, none, IndexDrawPoolManager.empty, 0⟩ ⟨1, 0⟩).1.head?,
      s0.isTrack = some true) ∧
    List.Chain' (fun a b => a.isTrack ≠ b.isTrack)
      (TalkshowStation.run 0 3
        ⟨"p", metaPlain, 0, none, IndexDrawPoolManager.empty, 0⟩ ⟨1, 0⟩).1) :=
  ⟨by decide, by decide,
    c7_alternation "p" metaPlain ⟨1, 0⟩ 0 3 (by decide) (by decide)⟩

/-- C8: in any run of the Weighted-Stochastic variant, a transition segment
(`isTrack = false`) is never immediately followed by another transition
segment — a track always follows a transition. -/
theorem c8_no_double_transition (st : DynamicStation) (prng : SeededPRNG)
    (epoch k : ℕ)
    (htr : st.meta.fileGroups.track ≠ [])
    (hid : st.meta.fileGroups.id ≠ [])
    (hmono : st.meta.fileGroups.mono_solo ≠ []) :
    List.Chain' (fun a b => ¬(a.isTrack = some false ∧ b.isTrack = some false))
      (DynamicStation.run epoch k st prng).1 :=
  (dynamic_run_chain epoch k st prng).2

/-- Witness for C8 on a four-step run of the `metaPlain` dynamic station. -/
theorem c8_no_double_transition_witness :
    dynPlain.meta.fileGroups.track ≠ [] ∧
    dynPlain.meta.fileGroups.id ≠ [] ∧
    dynPlain.meta.fileGroups.mono_solo ≠ [] ∧
    List.Chain' (fun a b => ¬(a.isTrack = some false ∧ b.isTrack = some false))
      (DynamicStation.run 0 4 dynPlain ⟨0, 0⟩).1 :=
  ⟨by decide, by decide, by decide,
    c8_no_double_transition dynPlain ⟨0, 0⟩ 0 4 (by decide) (by decide)
      (by decide)⟩

lemma static_syncLoop_meta (epoch now : ℕ) :
    ∀ (fuel : ℕ) (st : StaticStation),
      (StaticStation.syncLoop epoch now fuel st).2.meta = st.meta ∧
      (StaticStation.syncLoop epoch now fuel st).2.path = st.path := by
  intro fuel
  induction fuel with
  | zero => intro st; exact ⟨rfl, rfl⟩
  | succ fuel ih =>
    intro st
    simp only [StaticStation.syncLoop, StaticStation.nextSegment]
    split
    · exact ⟨rfl, rfl⟩
    · exact ⟨(ih _).1, (ih _).2⟩

lemma static_getSynced_state (st : StaticStation) (epoch now fuel : ℕ) :
    (st.getSyncedSegment epoch now fuel).2.meta = st.meta ∧
    (st.getSyncedSegment epoch now fuel).2.path = st.path := by
  unfold StaticStation.getSyncedSegment
  exact static_syncLoop_meta epoch now fuel _

lemma static_getSynced_congr (st1 st2 : StaticStation) (epoch now fuel : ℕ)
    (hm : st1.meta = st2.meta) (hp : st1.path = st2.path) :
    (st1.getSyncedSegment epoch now fuel).1
      = (st2.getSyncedSegment epoch now fuel).1 := by
  unfold StaticStation.getSyncedSegment
  have hreset : ({ st1 with segmentIndex := 0, accumulatedTime := 0 } : StaticStation)
      = { st2 with segmentIndex := 0, accumulatedTime := 0 } := by
    cases st1
    cases st2
    simp_all
  rw [hreset]

/-- C3 is false on the code: the draw pools are NOT reset by
`getSyncedSegment`, so for the dynamic station `stFour` (four tracks,
seed 0, epoch 0, clock instant 25000 ms) two successive `getSyncedSegment`
calls at the same instant return different segments (`t2`, then `t1`). -/
theorem c3_counterexample :
    (stFour.getSyncedSegment ⟨0, 0⟩ 0 25000 10).1 ≠
      ((stFour.getSyncedSegment ⟨0, 0⟩ 0 25000 10).2.1.getSyncedSegment
        (stFour.getSyncedSegment ⟨0, 0⟩ 0 25000 10).2.2 0 25000 10).1 := by
  decide

/-- C3 amended: `getSyncedSegment` resets accumulated time, the number
source index, the previous segment and the rotation cursor, but not the
draw pools; consequently only the Fixed-Rotation variant — which uses no
draw pools — is guaranteed to return the same result when called twice in
succession at the same clock instant. -/
theorem c3_amended (st : StaticStation) (epoch now fuel : ℕ) :
    ((st.getSyncedSegment epoch now fuel).2.getSyncedSegment epoch now fuel).1
      = (st.getSyncedSegment epoch now fuel).1 := by
  have h := static_getSynced_state st epoch now fuel
  exact static_getSynced_congr _ _ epoch now fuel h.1 h.2

end GtaVRadio
